import Mathlib

/-!
Verification of the metadata-fetch pipeline of the obsidian-link-embed plugin.

The development shallowly embeds the functions of `src/embedUtils.ts` and
`src/eventHandlers.ts`: collaborator calls (network fetches, parser
invocations, the notice sink, the editor) are modelled as explicit
environment parameters and event traces, and the control flow of each
function is translated statement by statement.
-/

namespace LinkEmbed

/-! ## Fallback orchestrator `tryParsers` (src/embedUtils.ts, lines 200-260)

The orchestrator walks the configured parser names in order.  Per attempt it
hides the previous progress notice, shows a new one, instantiates the parser
and invokes `parse(url)`.  On success it hides the notice and returns; on
failure it shows a failure notice and advances; when the last parser fails it
hides the notice and rethrows the last error; for the empty list it throws
the generic error.  Observable behaviour (notices shown/hidden, parsers
instantiated/invoked, failure notices) is recorded as an event trace. -/

/-- Observable events of a `tryParsers` run. -/
inductive TPEvent where
  | progressShown (p : String)
  | progressHidden (p : String)
  | instantiated (p : String)
  | parseInvoked (p : String)
  | failureNotice (p : String) (err : String)
deriving DecidableEq, Repr

/-- Accumulated event log plus the currently visible progress notice
(the mutable `notice` variable of the source). -/
structure TPState where
  events : List TPEvent
  notice : Option String
deriving DecidableEq, Repr

/-- Model of `notice.hide()`: hiding is a no-op when no notice is visible. -/
def hideNotice (st : TPState) : TPState :=
  match st.notice with
  | none => st
  | some p => { events := st.events ++ [TPEvent.progressHidden p], notice := none }

/-- The `while` loop of `tryParsers` (lines 208-249 of src/embedUtils.ts),
with the parser registry and network abstracted into `env : name -> result`.
The `[]` branch is the loop exit (reached only when the original list is
empty): hide any notice and throw the generic error, exactly as lines
250-253.  In the failure branch, when the failed parser was the last one
(`idx === selectedParsers.length` in the source) the notice is hidden and
the last error is rethrown; the outer catch then hides again, a no-op. -/
def tryParsersLoop {α : Type} (env : String → Except String α) :
    List String → TPState → Except String (α × String) × TPState
  | [], st => (Except.error "All parsers failed", hideNotice st)
  | p :: rest, st =>
    let st1 := hideNotice st
    let st2 : TPState :=
      { events := st1.events ++
          [TPEvent.progressShown p, TPEvent.instantiated p, TPEvent.parseInvoked p],
        notice := some p }
    match env p with
    | Except.ok d => (Except.ok (d, p), hideNotice st2)
    | Except.error e =>
      let st3 : TPState := { st2 with events := st2.events ++ [TPEvent.failureNotice p e] }
      match rest with
      | [] => (Except.error e, hideNotice st3)
      | r :: rs => tryParsersLoop env (r :: rs) st3

/-- `tryParsers(url, selectedParsers, settings, locationInfo)`
(src/embedUtils.ts, lines 200-260).  `parse name url` is the combined
outcome of `createParser(name, ...)` followed by `parser.parse(url)`. -/
def tryParsers {α : Type} (parse : String → String → Except String α) (url : String)
    (selectedParsers : List String) : Except String (α × String) × TPState :=
  tryParsersLoop (fun p => parse p url) selectedParsers ⟨[], none⟩

/-- Names of the parsers whose `parse` was invoked, in order. -/
def parseInvokedOf : List TPEvent → List String :=
  List.filterMap (fun e => match e with | TPEvent.parseInvoked p => some p | _ => none)

/-- Names of the parsers that were instantiated (`createParser`), in order. -/
def instantiatedOf : List TPEvent → List String :=
  List.filterMap (fun e => match e with | TPEvent.instantiated p => some p | _ => none)

/-- Parser names for which a progress notice was shown, in order. -/
def shownOf : List TPEvent → List String :=
  List.filterMap (fun e => match e with | TPEvent.progressShown p => some p | _ => none)

/-- Parser names whose progress notice was hidden (retracted), in order. -/
def hiddenOf : List TPEvent → List String :=
  List.filterMap (fun e => match e with | TPEvent.progressHidden p => some p | _ => none)

/-- The failure notices shown, as (parser, error) pairs in order. -/
def failuresOf : List TPEvent → List (String × String) :=
  List.filterMap (fun e => match e with | TPEvent.failureNotice p err => some (p, err) | _ => none)

/-- Error payload of a failed parse (and `""` for a success). -/
def errOf {α : Type} : Except String α → String
  | Except.error e => e
  | Except.ok _ => ""

lemma parseInvokedOf_append (a b : List TPEvent) :
    parseInvokedOf (a ++ b) = parseInvokedOf a ++ parseInvokedOf b :=
  List.filterMap_append a b _

lemma instantiatedOf_append (a b : List TPEvent) :
    instantiatedOf (a ++ b) = instantiatedOf a ++ instantiatedOf b :=
  List.filterMap_append a b _

lemma shownOf_append (a b : List TPEvent) :
    shownOf (a ++ b) = shownOf a ++ shownOf b :=
  List.filterMap_append a b _

lemma hiddenOf_append (a b : List TPEvent) :
    hiddenOf (a ++ b) = hiddenOf a ++ hiddenOf b :=
  List.filterMap_append a b _

lemma failuresOf_append (a b : List TPEvent) :
    failuresOf (a ++ b) = failuresOf a ++ failuresOf b :=
  List.filterMap_append a b _

/-- Evaluating `notice.hide()` on an arbitrary state: the pending notice
name (if any) is appended as a `progressHidden` event. -/
lemma hideNotice_eq (evs : List TPEvent) (m : Option String) :
    hideNotice ⟨evs, m⟩ = ⟨evs ++ m.toList.map TPEvent.progressHidden, none⟩ := by
  cases m <;> simp [hideNotice]

/-- One-step unfolding of the loop when the head parser succeeds. -/
lemma tryParsersLoop_cons_ok {α : Type} (env : String → Except String α) {f : String} {d : α}
    (he : env f = Except.ok d) (rest : List String) (st : TPState) :
    tryParsersLoop env (f :: rest) st =
      (Except.ok (d, f),
        hideNotice ⟨(hideNotice st).events ++
          [TPEvent.progressShown f, TPEvent.instantiated f, TPEvent.parseInvoked f],
          some f⟩) := by
  unfold tryParsersLoop
  rw [he]

/-- One-step unfolding of the loop when the head parser fails and it is the
last parser: the notice is hidden and the error is rethrown. -/
lemma tryParsersLoop_cons_error_last {α : Type} (env : String → Except String α)
    {f : String} {e : String} (he : env f = Except.error e) (st : TPState) :
    tryParsersLoop env [f] st =
      (Except.error e,
        hideNotice ⟨((hideNotice st).events ++
          [TPEvent.progressShown f, TPEvent.instantiated f, TPEvent.parseInvoked f]) ++
          [TPEvent.failureNotice f e], some f⟩) := by
  unfold tryParsersLoop
  rw [he]

/-- One-step unfolding of the loop when the head parser fails and further
parsers remain: a failure notice is shown and the loop advances. -/
lemma tryParsersLoop_cons_error_more {α : Type} (env : String → Except String α)
    {f : String} {e : String} (he : env f = Except.error e) (r : String) (rs : List String)
    (st : TPState) :
    tryParsersLoop env (f :: r :: rs) st =
      tryParsersLoop env (r :: rs)
        ⟨((hideNotice st).events ++
          [TPEvent.progressShown f, TPEvent.instantiated f, TPEvent.parseInvoked f]) ++
          [TPEvent.failureNotice f e], some f⟩ := by
  conv_lhs => unfold tryParsersLoop
  rw [he]

/-- Trace-level characterisation of the loop when the parsers `fs` all fail
and then `p` succeeds: the result is `p`'s data paired with `p`'s name, the
attempted parsers are exactly `fs ++ [p]`, every shown notice (plus any
notice inherited from the initial state) is retracted, the final notice is
retracted, and exactly one failure notice per failed parser was shown. -/
lemma tryParsersLoop_success {α : Type} (env : String → Except String α) (d : α) (p : String) :
    ∀ (fs : List String) (rest : List String) (evs : List TPEvent) (m : Option String),
    (∀ q ∈ fs, ∃ e, env q = Except.error e) → env p = Except.ok d →
    ∃ ev, tryParsersLoop env (fs ++ p :: rest) ⟨evs, m⟩ =
        (Except.ok (d, p), ⟨evs ++ ev, none⟩) ∧
      parseInvokedOf ev = fs ++ [p] ∧ instantiatedOf ev = fs ++ [p] ∧
      shownOf ev = fs ++ [p] ∧ hiddenOf ev = m.toList ++ (fs ++ [p]) ∧
      failuresOf ev = fs.map (fun q => (q, errOf (env q))) := by
  intro fs
  induction fs with
  | nil =>
    intro rest evs m _ hsucc
    refine ⟨m.toList.map TPEvent.progressHidden ++
      [TPEvent.progressShown p, TPEvent.instantiated p, TPEvent.parseInvoked p,
       TPEvent.progressHidden p], ?_, ?_, ?_, ?_, ?_, ?_⟩
    · rw [List.nil_append, tryParsersLoop_cons_ok env hsucc rest ⟨evs, m⟩]
      cases m <;> simp [hideNotice]
    · cases m <;> simp [parseInvokedOf]
    · cases m <;> simp [instantiatedOf]
    · cases m <;> simp [shownOf]
    · cases m <;> simp [hiddenOf, Option.toList]
    · cases m <;> simp [failuresOf]
  | cons f fs' ih =>
    intro rest evs m hfail hsucc
    obtain ⟨e, he⟩ := hfail f (List.mem_cons_self f fs')
    have hfail' : ∀ q ∈ fs', ∃ e', env q = Except.error e' :=
      fun q hq => hfail q (List.mem_cons_of_mem f hq)
    obtain ⟨ev', hrun, hinv, hinst, hshown, hhid, hfailev⟩ := ih rest
      (evs ++ (m.toList.map TPEvent.progressHidden ++
        [TPEvent.progressShown f, TPEvent.instantiated f, TPEvent.parseInvoked f,
         TPEvent.failureNotice f e]))
      (some f) hfail' hsucc
    refine ⟨(m.toList.map TPEvent.progressHidden ++
      [TPEvent.progressShown f, TPEvent.instantiated f, TPEvent.parseInvoked f,
       TPEvent.failureNotice f e]) ++ ev', ?_, ?_, ?_, ?_, ?_, ?_⟩
    · rw [List.cons_append]
      obtain ⟨r, rs, hfp⟩ : ∃ r rs, fs' ++ p :: rest = r :: rs := by
        cases fs' with
        | nil => exact ⟨p, rest, rfl⟩
        | cons a as => exact ⟨a, as ++ p :: rest, by simp⟩
      rw [hfp] at hrun ⊢
      rw [tryParsersLoop_cons_error_more env he r rs ⟨evs, m⟩, hideNotice_eq]
      simp only [List.append_assoc, List.cons_append, List.nil_append] at hrun ⊢
      exact hrun
    · cases m <;> (simp only [parseInvokedOf_append]; rw [hinv]; simp [parseInvokedOf])
    · cases m <;> (simp only [instantiatedOf_append]; rw [hinst]; simp [instantiatedOf])
    · cases m <;> (simp only [shownOf_append]; rw [hshown]; simp [shownOf])
    · cases m <;> (simp only [hiddenOf_append]; rw [hhid]; simp [hiddenOf])
    · cases m <;> (simp only [failuresOf_append]; rw [hfailev]; simp [failuresOf, he, errOf])

/-- Trace-level characterisation of the loop when every parser fails: the
loop rethrows the last parser's error, attempts every parser in order,
retracts every notice, and shows exactly one failure notice per parser. -/
lemma tryParsersLoop_allfail {α : Type} (env : String → Except String α) (l : String) (e : String) :
    ∀ (fs : List String) (evs : List TPEvent) (m : Option String),
    (∀ q ∈ fs, ∃ e', env q = Except.error e') → env l = Except.error e →
    ∃ ev, tryParsersLoop env (fs ++ [l]) ⟨evs, m⟩ = (Except.error e, ⟨evs ++ ev, none⟩) ∧
      parseInvokedOf ev = fs ++ [l] ∧ instantiatedOf ev = fs ++ [l] ∧
      shownOf ev = fs ++ [l] ∧ hiddenOf ev = m.toList ++ (fs ++ [l]) ∧
      failuresOf ev = (fs ++ [l]).map (fun q => (q, errOf (env q))) := by
  intro fs
  induction fs with
  | nil =>
    intro evs m _ hlast
    refine ⟨m.toList.map TPEvent.progressHidden ++
      [TPEvent.progressShown l, TPEvent.instantiated l, TPEvent.parseInvoked l,
       TPEvent.failureNotice l e, TPEvent.progressHidden l], ?_, ?_, ?_, ?_, ?_, ?_⟩
    · rw [List.nil_append, tryParsersLoop_cons_error_last env hlast ⟨evs, m⟩]
      cases m <;> simp [hideNotice]
    · cases m <;> simp [parseInvokedOf]
    · cases m <;> simp [instantiatedOf]
    · cases m <;> simp [shownOf]
    · cases m <;> simp [hiddenOf, Option.toList]
    · cases m <;> simp [failuresOf, hlast, errOf]
  | cons f fs' ih =>
    intro evs m hfail hlast
    obtain ⟨e', he⟩ := hfail f (List.mem_cons_self f fs')
    have hfail' : ∀ q ∈ fs', ∃ e'', env q = Except.error e'' :=
      fun q hq => hfail q (List.mem_cons_of_mem f hq)
    obtain ⟨ev', hrun, hinv, hinst, hshown, hhid, hfailev⟩ := ih
      (evs ++ (m.toList.map TPEvent.progressHidden ++
        [TPEvent.progressShown f, TPEvent.instantiated f, TPEvent.parseInvoked f,
         TPEvent.failureNotice f e']))
      (some f) hfail' hlast
    refine ⟨(m.toList.map TPEvent.progressHidden ++
      [TPEvent.progressShown f, TPEvent.instantiated f, TPEvent.parseInvoked f,
       TPEvent.failureNotice f e']) ++ ev', ?_, ?_, ?_, ?_, ?_, ?_⟩
    · rw [List.cons_append]
      obtain ⟨r, rs, hfp⟩ : ∃ r rs, fs' ++ [l] = r :: rs := by
        cases fs' with
        | nil => exact ⟨l, [], rfl⟩
        | cons a as => exact ⟨a, as ++ [l], by simp⟩
      rw [hfp] at hrun ⊢
      rw [tryParsersLoop_cons_error_more env he r rs ⟨evs, m⟩, hideNotice_eq]
      simp only [List.append_assoc, List.cons_append, List.nil_append] at hrun ⊢
      exact hrun
    · cases m <;> (simp only [parseInvokedOf_append]; rw [hinv]; simp [parseInvokedOf])
    · cases m <;> (simp only [instantiatedOf_append]; rw [hinst]; simp [instantiatedOf])
    · cases m <;> (simp only [shownOf_append]; rw [hshown]; simp [shownOf])
    · cases m <;> (simp only [hiddenOf_append]; rw [hhid]; simp [hiddenOf])
    · cases m <;> (simp only [failuresOf_append]; rw [hfailev]; simp [failuresOf, he, errOf])

/-- C1: for every URL and parser list, if the parsers `fs` before `p` all
fail and `p` succeeds with `d`, then `tryParsers` returns `{data := d,
selectedParser := p}`, exactly the parsers `fs ++ [p]` are instantiated and
invoked (in order, so none of the parsers after `p` is ever instantiated or
invoked), and no progress notice is left visible. -/
theorem tryParsers_first_success {α : Type} (parse : String → String → Except String α)
    (url : String) (fs rest : List String) (p : String) (d : α)
    (hfail : ∀ q ∈ fs, ∃ e, parse q url = Except.error e)
    (hsucc : parse p url = Except.ok d) :
    ∃ tr : TPState, tryParsers parse url (fs ++ p :: rest) = (Except.ok (d, p), tr) ∧
      parseInvokedOf tr.events = fs ++ [p] ∧ instantiatedOf tr.events = fs ++ [p] ∧
      tr.notice = none := by
  obtain ⟨ev, hrun, hinv, hinst, _, _, _⟩ :=
    tryParsersLoop_success (fun q => parse q url) d p fs rest [] none hfail hsucc
  exact ⟨⟨ev, none⟩, by simpa [tryParsers] using hrun, hinv, hinst, rfl⟩

/-- Witness for C1: with parser "a" failing and parser "b" succeeding with
value 7, the orchestrator returns (7, "b"), attempts exactly ["a", "b"]
(never the trailing "c"), and retracts the progress notice. -/
theorem tryParsers_first_success_witness :
    ∃ tr : TPState,
      tryParsers (fun p _ => if p = "a" then Except.error "boom" else Except.ok 7) "u"
        (["a"] ++ "b" :: ["c"]) = (Except.ok (7, "b"), tr) ∧
      parseInvokedOf tr.events = ["a"] ++ ["b"] ∧
      instantiatedOf tr.events = ["a"] ++ ["b"] ∧ tr.notice = none :=
  tryParsers_first_success (fun p _ => if p = "a" then Except.error "boom" else Except.ok 7)
    "u" ["a"] ["c"] "b" 7
    (fun q hq => by
      rw [List.mem_singleton] at hq
      subst hq
      exact ⟨"boom", rfl⟩)
    rfl

/-- Helper: the last element of `l ++ [a]` is `a`. -/
lemma getLast_append_singleton {α : Type} (l : List α) (a : α) (h : l ++ [a] ≠ []) :
    (l ++ [a]).getLast h = a :=
  List.getLast_append_singleton l

/-- C2: for every URL and non-empty parser list in which every parser
fails, `tryParsers` rejects with exactly the error of the last attempted
parser, exactly one failure notice per attempted parser is shown (in
order, carrying each parser's error), every shown progress notice is
retracted, and no progress notice is left visible on exit. -/
theorem tryParsers_all_fail {α : Type} (parse : String → String → Except String α)
    (url : String) (names : List String) (hne : names ≠ [])
    (hfail : ∀ q ∈ names, ∃ e, parse q url = Except.error e) :
    ∃ (tr : TPState) (e : String),
      parse (names.getLast hne) url = Except.error e ∧
      tryParsers parse url names = (Except.error e, tr) ∧
      failuresOf tr.events = names.map (fun q => (q, errOf (parse q url))) ∧
      shownOf tr.events = names ∧ hiddenOf tr.events = names ∧ tr.notice = none := by
  obtain ⟨fs, l, rfl⟩ : ∃ fs l, names = fs ++ [l] := by
    rcases List.eq_nil_or_concat names with h | ⟨fs, l, h⟩
    · exact absurd h hne
    · exact ⟨fs, l, by simpa using h⟩
  obtain ⟨e, he⟩ := hfail l (by simp)
  obtain ⟨ev, hrun, _, _, hshown, hhid, hfailev⟩ :=
    tryParsersLoop_allfail (fun q => parse q url) l e fs [] none
      (fun q hq => hfail q (by simp [hq])) he
  refine ⟨⟨ev, none⟩, e, ?_, by simpa [tryParsers] using hrun, hfailev, hshown,
    by simpa using hhid, rfl⟩
  rwa [getLast_append_singleton fs l hne]

/-- Witness for C2: with both parsers "a" and "b" failing (parser q fails
with error "E" ++ q), the orchestrator rejects with the last parser's error,
shows one failure notice per parser, and retracts both progress notices. -/
theorem tryParsers_all_fail_witness :
    ∃ (tr : TPState) (e : String),
      (fun (p : String) (_ : String) => (Except.error ("E" ++ p) : Except String ℕ))
        ((["a", "b"] : List String).getLast (by simp)) "u" = Except.error e ∧
      tryParsers (fun p _ => (Except.error ("E" ++ p) : Except String ℕ)) "u" ["a", "b"] =
        (Except.error e, tr) ∧
      failuresOf tr.events = (["a", "b"] : List String).map
        (fun q => (q, errOf ((fun (p : String) (_ : String) =>
          (Except.error ("E" ++ p) : Except String ℕ)) q "u"))) ∧
      shownOf tr.events = ["a", "b"] ∧ hiddenOf tr.events = ["a", "b"] ∧ tr.notice = none :=
  tryParsers_all_fail (fun p _ => (Except.error ("E" ++ p) : Except String ℕ)) "u"
    ["a", "b"] (by simp) (fun q _ => ⟨"E" ++ q, rfl⟩)

/-- C10: for the empty parser list, `tryParsers` rejects with the generic
error "All parsers failed", with an empty event trace: no parser was
instantiated or invoked, no failure notice and no progress notice was
shown, and no notice is left visible. -/
theorem tryParsers_empty_list {α : Type} (parse : String → String → Except String α)
    (url : String) :
    tryParsers parse url [] =
      (Except.error "All parsers failed", ⟨([] : List TPEvent), none⟩) := rfl

/-! ## Cache and favicon resolution `getFavicon` (src/embedUtils.ts, lines 25-96)

The plugin's unified cache is a `Map<string, any>`; for favicon use it maps
URL strings to favicon strings.  It is modelled as an association list with
JavaScript Map semantics (`has` / `get` / `set`, `set` overwrites in place).
The network and DOM collaborators (`getHtmlByElectron`, `getHtmlByRequest`,
`new URL(url)`, `localParser.getFavicon`) are an explicit environment of
fallible operations; a thrown exception is an `Except.error`. -/

/-- The unified plugin cache (favicon entries). -/
abbrev Cache := List (String × String)

/-- `cache.has(key)`. -/
def cacheHas (c : Cache) (k : String) : Bool := c.any (fun kv => kv.1 == k)

/-- `cache.get(key)` (first binding for the key). -/
def cacheGet (c : Cache) (k : String) : Option String :=
  (c.find? (fun kv => kv.1 == k)).map (fun kv => kv.2)

/-- `cache.set(key, value)`: overwrite the binding if present, else append. -/
def cacheSet : Cache → String → String → Cache
  | [], k, v => [(k, v)]
  | kv :: rest, k, v => if kv.1 == k then (k, v) :: rest else kv :: cacheSet rest k v

/-- JavaScript string truthiness for a `string | null` value: `null`,
`undefined` and the empty string are falsy. -/
def strTruthy : Option String → Bool
  | some s => !(s == "")
  | none => false

/-- Collaborators of `getFavicon`: the two HTML fetch strategies (each may
throw, or return `null`/a string), the `new URL(url)` constructor (throws on
an invalid URL), and favicon extraction from the fetched HTML
(`localParser.getFavicon`, which may throw or return `null`/a string). -/
structure FavEnv where
  htmlByElectron : Except String (Option String)
  htmlByRequest : Except String (Option String)
  parseUrl : Except String Unit
  extractFavicon : String → Except String (Option String)

/-- Observable effects of a `getFavicon` call. -/
inductive FavEvent where
  | electronFetch
  | requestFetch
  | parsedDoc
  | extractCalled
  | cacheWrite (k v : String)
  | errorNotice
deriving DecidableEq, Repr

/-- Result of a `getFavicon` call: the resolved value (**always** a plain
string — the promise never rejects), the cache after the call, and the
effects performed. -/
structure FavResult where
  value : String
  cache : Cache
  events : List FavEvent
deriving DecidableEq, Repr

/-- Line 49-51 of src/embedUtils.ts:
`(await localParser.getHtmlByElectron(url)) || (await localParser.getHtmlByRequest(url))`.
The second strategy runs only when the first returned a falsy value; an
exception in either propagates. -/
def favFetchHtml (env : FavEnv) : Except String (Option String) × List FavEvent :=
  match env.htmlByElectron with
  | Except.error e => (Except.error e, [FavEvent.electronFetch])
  | Except.ok h1 =>
    if strTruthy h1 then (Except.ok h1, [FavEvent.electronFetch])
    else
      match env.htmlByRequest with
      | Except.error e => (Except.error e, [FavEvent.electronFetch, FavEvent.requestFetch])
      | Except.ok h2 => (Except.ok h2, [FavEvent.electronFetch, FavEvent.requestFetch])

/-- `getFavicon(url, settings, cache, debug)` (src/embedUtils.ts, lines
25-96).  The cache fast path is checked first; the whole body is wrapped in
`try/catch`: any thrown error is reported via `showNotice` and the call
resolves to the empty string.  A found favicon is cached only when caching
is enabled; a `null` favicon is never cached and resolves to `""`. -/
def getFavicon (env : FavEnv) (useCache : Bool) (url : String) (cache : Cache) : FavResult :=
  if useCache && cacheHas cache url then
    { value := (cacheGet cache url).getD "", cache := cache, events := [] }
  else
    match favFetchHtml env with
    | (Except.error _, evs) =>
      { value := "", cache := cache, events := evs ++ [FavEvent.errorNotice] }
    | (Except.ok h, evs) =>
      if strTruthy h then
        match env.parseUrl with
        | Except.error _ =>
          { value := "", cache := cache,
            events := evs ++ [FavEvent.parsedDoc, FavEvent.errorNotice] }
        | Except.ok _ =>
          match env.extractFavicon (h.getD "") with
          | Except.error _ =>
            { value := "", cache := cache,
              events := evs ++ [FavEvent.parsedDoc, FavEvent.extractCalled,
                FavEvent.errorNotice] }
          | Except.ok fav =>
            if strTruthy fav && useCache then
              { value := fav.getD "", cache := cacheSet cache url (fav.getD ""),
                events := evs ++ [FavEvent.parsedDoc, FavEvent.extractCalled,
                  FavEvent.cacheWrite url (fav.getD "")] }
            else if strTruthy fav then
              { value := fav.getD "", cache := cache,
                events := evs ++ [FavEvent.parsedDoc, FavEvent.extractCalled] }
            else
              { value := "", cache := cache,
                events := evs ++ [FavEvent.parsedDoc, FavEvent.extractCalled] }
      else
        -- `if (!html) return ''` (lines 54-62): no notice, nothing cached
        { value := "", cache := cache, events := evs }

/-- C7: when caching is enabled and the cache already holds the URL,
`getFavicon` returns the cached value with the cache unchanged and an empty
effect trace: no network fetch, no parsing, no extraction and no cache
write are performed.  (The cache check is the first thing the function
does.) -/
theorem getFavicon_cache_hit (env : FavEnv) (url : String) (cache : Cache) (v : String)
    (hhas : cacheHas cache url = true) (hget : cacheGet cache url = some v) :
    getFavicon env true url cache = ⟨v, cache, []⟩ := by
  simp [getFavicon, hhas, hget]

/-- Witness for C7: even with an environment in which every collaborator
throws, a cache hit returns the cached value with no effects at all. -/
theorem getFavicon_cache_hit_witness :
    getFavicon ⟨Except.error "netfail", Except.error "netfail", Except.error "badurl",
        fun _ => Except.error "extractfail"⟩ true "https://a.b" [("https://a.b", "fav.ico")] =
      ⟨"fav.ico", [("https://a.b", "fav.ico")], []⟩ :=
  getFavicon_cache_hit _ "https://a.b" [("https://a.b", "fav.ico")] "fav.ico" rfl rfl

/-- C8: when caching is disabled, `getFavicon` neither reads nor writes the
cache: its value and its effects are identical for any two cache states,
and the cache after the call is exactly the cache before it. -/
theorem getFavicon_cache_disabled (env : FavEnv) (url : String) (c1 c2 : Cache) :
    (getFavicon env false url c1).value = (getFavicon env false url c2).value ∧
    (getFavicon env false url c1).events = (getFavicon env false url c2).events ∧
    (getFavicon env false url c1).cache = c1 := by
  unfold getFavicon
  rcases hf : favFetchHtml env with ⟨r, evs⟩
  rcases r with e | h
  · simp
  · cases hh : strTruthy h
    · simp [hh]
    · rcases hp : env.parseUrl with e | u
      · simp [hh, hp]
      · rcases hx : env.extractFavicon (h.getD "") with e | fav
        · simp [hh, hp, hx]
        · cases hfav : strTruthy fav <;> simp [hh, hp, hx, hfav]

/-- The fetch stage performs only fetch effects — in particular it never
writes to the cache. -/
lemma favFetchHtml_no_cacheWrite (env : FavEnv) (k v : String) :
    FavEvent.cacheWrite k v ∉ (favFetchHtml env).2 := by
  rcases he : env.htmlByElectron with e | h1
  · simp [favFetchHtml, he]
  · rcases hr : env.htmlByRequest with e | h2 <;> cases hh : strTruthy h1 <;>
      simp [favFetchHtml, he, hr, hh]

/-- C5: `getFavicon` never rejects.  Every failure of a collaborator
(either fetch strategy, the URL constructor, or favicon extraction) is
caught: the call resolves to the empty string, shows an error notice, and
leaves the cache unchanged.  And when extraction succeeds but yields
`null`, the call resolves to the empty string and nothing is cached. -/
theorem getFavicon_never_throws (env : FavEnv) (useCache : Bool) (url : String) (cache : Cache)
    (hmiss : (useCache && cacheHas cache url) = false) :
    (∀ e evs, favFetchHtml env = (Except.error e, evs) →
      (getFavicon env useCache url cache).value = "" ∧
      (getFavicon env useCache url cache).cache = cache ∧
      FavEvent.errorNotice ∈ (getFavicon env useCache url cache).events) ∧
    (∀ e h evs, favFetchHtml env = (Except.ok h, evs) → strTruthy h = true →
      env.parseUrl = Except.error e →
      (getFavicon env useCache url cache).value = "" ∧
      (getFavicon env useCache url cache).cache = cache ∧
      FavEvent.errorNotice ∈ (getFavicon env useCache url cache).events) ∧
    (∀ e h evs, favFetchHtml env = (Except.ok h, evs) → strTruthy h = true →
      env.parseUrl = Except.ok () → env.extractFavicon (h.getD "") = Except.error e →
      (getFavicon env useCache url cache).value = "" ∧
      (getFavicon env useCache url cache).cache = cache ∧
      FavEvent.errorNotice ∈ (getFavicon env useCache url cache).events) ∧
    (∀ h evs, favFetchHtml env = (Except.ok h, evs) → strTruthy h = true →
      env.parseUrl = Except.ok () → env.extractFavicon (h.getD "") = Except.ok none →
      (getFavicon env useCache url cache).value = "" ∧
      (getFavicon env useCache url cache).cache = cache ∧
      ∀ k v, FavEvent.cacheWrite k v ∉ (getFavicon env useCache url cache).events) := by
  refine ⟨?_, ?_, ?_, ?_⟩
  · intro e evs hf
    simp [getFavicon, hmiss, hf]
  · intro e h evs hf hh hp
    simp [getFavicon, hmiss, hf, hh, hp]
  · intro e h evs hf hh hp hx
    simp [getFavicon, hmiss, hf, hh, hp, hx]
  · intro h evs hf hh hp hx
    have hnone : strTruthy none = false := rfl
    simp only [getFavicon, hmiss, hf, hh, hp, hx, hnone, Bool.false_eq_true, if_false,
      Bool.false_and, if_true]
    refine ⟨trivial, trivial, ?_⟩
    intro k v
    have hno : FavEvent.cacheWrite k v ∉ (favFetchHtml env).2 :=
      favFetchHtml_no_cacheWrite env k v
    rw [hf] at hno
    simp [hno]

/-- Witness for C5: in an environment whose extraction yields `null` (no
icon link tag and no resolvable fallback), `getFavicon` resolves to the
empty string, the cache is unchanged (nothing cached), and no cache write
occurs. -/
theorem getFavicon_never_throws_witness :
    (getFavicon ⟨Except.ok (some "<html></html>"), Except.ok none, Except.ok (),
        fun _ => Except.ok none⟩ false "https://a.b" []).value = "" ∧
    (getFavicon ⟨Except.ok (some "<html></html>"), Except.ok none, Except.ok (),
        fun _ => Except.ok none⟩ false "https://a.b" []).cache = [] ∧
    ∀ k v, FavEvent.cacheWrite k v ∉
      (getFavicon ⟨Except.ok (some "<html></html>"), Except.ok none, Except.ok (),
        fun _ => Except.ok none⟩ false "https://a.b" []).events :=
  (getFavicon_never_throws ⟨Except.ok (some "<html></html>"), Except.ok none, Except.ok (),
      fun _ => Except.ok none⟩ false "https://a.b" [] rfl).2.2.2
    (some "<html></html>") [FavEvent.electronFetch] rfl rfl rfl rfl

/-! ## Width calculation in `renderEmbed` (src/embedUtils.ts, lines 115-119)

```
const baseWidth = 160;
const calculatedWidth = aspectRatio
    ? Math.round((baseWidth * 100) / aspectRatio)
    : baseWidth * 100;
```

An absent (`undefined`) or zero aspect ratio is falsy in JavaScript, so the
second branch applies; numbers are modelled as rationals and `Math.round`
as rounding half toward positive infinity. -/

/-- JavaScript `Math.round`: round half toward positive infinity. -/
def jsRound (q : ℚ) : ℤ := ⌊q + 1 / 2⌋

/-- The `calculatedWidth` local of `renderEmbed`; `none` models an
`undefined` aspect ratio. -/
def calculatedWidth (ar : Option ℚ) : ℤ :=
  match ar with
  | some a => if a = 0 then 160 * 100 else jsRound (160 * 100 / a)
  | none => 160 * 100

/-- C6 counterexample: the claimed formula `round(1600 / aspectRatio)` does
not match the code.  At aspect ratio 100 the code computes
`round(16000 / 100) = 160`, not `round(1600 / 100) = 16`. -/
theorem calculatedWidth_claim_counterexample :
    calculatedWidth (some 100) ≠ jsRound (1600 / 100) := by
  have h1 : calculatedWidth (some 100) = 160 := by
    norm_num [calculatedWidth, jsRound]
  have h2 : jsRound (1600 / 100) = 16 := by
    norm_num [jsRound]
  rw [h1, h2]
  decide

/-- C6 amended: the computed width is `round(16000 / aspectRatio)`
(`baseWidth * 100` with `baseWidth = 160`) for every positive aspect ratio,
and `16000` when the aspect ratio is absent; the calculation is a pure
function of its input, so rendering the same metadata twice produces the
same width. -/
theorem calculatedWidth_correct :
    (∀ a : ℚ, 0 < a → calculatedWidth (some a) = jsRound (160 * 100 / a)) ∧
    calculatedWidth none = 160 * 100 ∧
    ∀ r : Option ℚ, calculatedWidth r = calculatedWidth r := by
  refine ⟨fun a ha => ?_, rfl, fun _ => rfl⟩
  simp [calculatedWidth, ne_of_gt ha]

/-- Witness for C6 (amended): at aspect ratio 2 the width is
`round(16000 / 2) = 8000`. -/
theorem calculatedWidth_correct_witness :
    (0 : ℚ) < 2 ∧ calculatedWidth (some 2) = jsRound (160 * 100 / 2) :=
  ⟨by norm_num, calculatedWidth_correct.1 2 (by norm_num)⟩

/-! ## Embed code-block handler (src/eventHandlers.ts, lines 52-334)

`handleEmbedCodeBlock` parses the block's YAML into an `EmbedInfo`, renders
dummy ("Fetching…") stubs verbatim, and otherwise runs two-phase rendering:
local-image conversion, favicon resolution and aspect-ratio probing (each
cache-checked when caching is enabled), an immediate render with
placeholders, and a final render once pending enrichments settle.  The
handler is modelled as the trace of operations it performs. -/

/-- Modelled from the spec: `SPINNER` is the sentinel spinner image data
URI defined in src/constants.ts, which is not among the provided sources.
Only its identity matters to the handler (`info.image === SPINNER`), not
its exact characters, so a representative data URI is used. -/
def SPINNER : String := "data:image/gif;base64,link-embed-spinner"

/-- The parsed fields of an embed code block (`parseYaml` result viewed as
an `EmbedInfo`); `none` models an absent key (`undefined`). -/
structure EmbedInfo where
  title : Option String
  image : Option String
  description : Option String
  url : Option String
  favicon : Option String
  aspectRatioValue : Option ℚ
deriving DecidableEq, Repr

/-- JavaScript `String.prototype.startsWith`, on the character sequence. -/
def startsWithJS (s pre : String) : Bool := pre.data.isPrefixOf s.data

/-- Lines 64-67 of src/eventHandlers.ts:
`info.title === 'Fetching' && info.image === SPINNER &&
info.description?.startsWith('Fetching ')`. -/
def isDummyEmbed (info : EmbedInfo) : Bool :=
  info.title == some "Fetching" && info.image == some SPINNER &&
    ((info.description.map (fun d => startsWithJS d "Fetching ")).getD false)

/-- Settings consulted by the handler (field `respectImageAR` models the
`respectImageAspectRatio` flag). -/
structure HSettings where
  enableFavicon : Bool
  respectImageAR : Bool
  useCache : Bool
deriving DecidableEq, Repr

/-- Collaborator of the handler: `imageFileToBase64` (may throw, may return
`null`). -/
structure HEnv where
  imageToBase64 : String → Except String (Option String)

/-- Operations the handler can perform, in order. -/
inductive HEvent where
  | renderDummy (ratio : ℚ)
  | convertLocalImage (path : String)
  | cacheReadFavicon (u : String)
  | faviconFetch (u : String)
  | cacheReadDimensions (img : String)
  | aspectProbe (img : String)
  | renderInitial
  | renderFinal
deriving DecidableEq, Repr

/-- `handleEmbedCodeBlock` (src/eventHandlers.ts, lines 52-334) as the
trace of operations performed.  A dummy embed is rendered verbatim with
aspect ratio 1 and nothing else happens; otherwise a local image is
converted, then missing favicon and missing aspect ratio are resolved
(cache first when enabled, else an async fetch/probe), the block is
rendered with placeholders, and a final render happens when fetches or
probes were started. -/
def handleEmbedCodeBlock (env : HEnv) (settings : HSettings) (cache : Cache)
    (info : EmbedInfo) : List HEvent :=
  if isDummyEmbed info then [HEvent.renderDummy 1]
  else
    let img0 := info.image.getD ""
    let needsConvert := strTruthy info.image &&
      !(startsWithJS img0 "http") && !(startsWithJS img0 "data:")
    let convertStep : List HEvent × Option String :=
      if needsConvert then
        match env.imageToBase64 img0 with
        | Except.ok (some b) => ([HEvent.convertLocalImage img0], some b)
        | Except.ok none => ([HEvent.convertLocalImage img0], info.image)
        | Except.error _ => ([HEvent.convertLocalImage img0], info.image)
      else ([], info.image)
    let image1 := convertStep.2
    let favStep : List HEvent × Bool :=
      if !(strTruthy info.favicon) && strTruthy info.url && settings.enableFavicon then
        if settings.useCache && cacheHas cache (info.url.getD "") then
          ([HEvent.cacheReadFavicon (info.url.getD "")], false)
        else ([HEvent.faviconFetch (info.url.getD "")], true)
      else ([], false)
    let arStep : List HEvent × Bool :=
      if settings.respectImageAR && decide (info.aspectRatioValue.getD 0 = 0) &&
          strTruthy image1 then
        if settings.useCache && cacheHas cache (image1.getD "") then
          ([HEvent.cacheReadDimensions (image1.getD "")], false)
        else ([HEvent.aspectProbe (image1.getD "")], true)
      else ([], false)
    convertStep.1 ++ favStep.1 ++ arStep.1 ++ [HEvent.renderInitial] ++
      (if favStep.2 || arStep.2 then [HEvent.renderFinal] else [])

/-- An embed block carrying the sentinel spinner image and a
"Fetching "-prefixed description, but a title other than "Fetching". -/
def stubInfoWrongTitle : EmbedInfo :=
  { title := some "Other", image := some SPINNER,
    description := some "Fetching https://x", url := some "https://x",
    favicon := none, aspectRatioValue := none }

/-- C9 counterexample: a block whose parsed fields carry the sentinel
spinner image and a description starting with "Fetching " — the claim's
recognition conditions — but whose title is not "Fetching" is NOT treated
as a stub: the code additionally requires `info.title === 'Fetching'`, so
processing continues and a favicon fetch is attempted instead of stopping
after a verbatim render. -/
theorem handleEmbedCodeBlock_claim_counterexample :
    stubInfoWrongTitle.image = some SPINNER ∧
    ((stubInfoWrongTitle.description.map
      (fun d => startsWithJS d "Fetching ")).getD false) = true ∧
    HEvent.faviconFetch "https://x" ∈
      handleEmbedCodeBlock ⟨fun _ => Except.ok none⟩ ⟨true, false, false⟩ []
        stubInfoWrongTitle ∧
    handleEmbedCodeBlock ⟨fun _ => Except.ok none⟩ ⟨true, false, false⟩ []
        stubInfoWrongTitle ≠ [HEvent.renderDummy 1] := by
  refine ⟨rfl, rfl, ?_, ?_⟩ <;> decide

/-- C9 amended: a block is a transient fetching stub exactly when its title
is "Fetching", its image is the sentinel spinner and its description starts
with "Fetching "; every such block is rendered verbatim with the default
aspect ratio 1 and the handler stops — no local-image conversion, favicon
fetch, aspect-ratio probe or cache access is attempted. -/
theorem handleEmbedCodeBlock_dummy_shortcircuit (env : HEnv) (settings : HSettings)
    (cache : Cache) (info : EmbedInfo) (h : isDummyEmbed info = true) :
    handleEmbedCodeBlock env settings cache info = [HEvent.renderDummy 1] := by
  simp [handleEmbedCodeBlock, h]

/-- A genuine dummy stub block as inserted by `embedUrl`. -/
def stubInfoDummy : EmbedInfo :=
  { title := some "Fetching", image := some SPINNER,
    description := some "Fetching https://x", url := some "https://x",
    favicon := none, aspectRatioValue := none }

/-- Witness for C9 (amended): a genuine dummy block is rendered verbatim
with ratio 1 and nothing else happens. -/
theorem handleEmbedCodeBlock_dummy_shortcircuit_witness :
    handleEmbedCodeBlock ⟨fun _ => Except.ok none⟩ ⟨true, true, true⟩ []
      stubInfoDummy = [HEvent.renderDummy 1] :=
  handleEmbedCodeBlock_dummy_shortcircuit ⟨fun _ => Except.ok none⟩ ⟨true, true, true⟩ []
    stubInfoDummy (by decide)

/-! ## Placeholder reconciliation in `embedUrl` (src/embedUtils.ts, lines 699-747)

After metadata resolution, `embedUrl` locates the dummy block by scanning
the whole document text: `fullText.indexOf(placeholderId)`, then
`fullText.lastIndexOf('```embed', placeholderIndex)` for the opening fence,
`fullText.indexOf('```', placeholderIndex)` for the closing fence, a check
that the located block still contains `url: "<url>"`, and finally
`editor.replaceRange(embed.trimEnd(), startPos, endPos)`.  If any step
fails, a "Dummy preview has been deleted or modified" notice is shown and
no edit is applied.  The JavaScript string primitives are modelled on the
character sequence of the string. -/

/-- `pat` occurs in `s` starting at character index `i`. -/
def occursAtB (s pat : String) (i : Nat) : Bool :=
  pat.data.isPrefixOf (s.data.drop i)

/-- Fuel-indexed upward scan for the first occurrence at index `>= i`. -/
def findFirstAux (s pat : String) : Nat → Nat → Option Nat
  | 0, _ => none
  | fuel + 1, i => if occursAtB s pat i then some i else findFirstAux s pat fuel (i + 1)

/-- JavaScript `s.indexOf(pat, start)` — `none` models `-1`. -/
def indexOfFrom (s pat : String) (start : Nat) : Option Nat :=
  findFirstAux s pat (s.data.length + 1 - start) start

/-- Downward scan for the last occurrence at index `<= i`. -/
def findLastAux (s pat : String) : Nat → Option Nat
  | 0 => if occursAtB s pat 0 then some 0 else none
  | i + 1 => if occursAtB s pat (i + 1) then some (i + 1) else findLastAux s pat i

/-- JavaScript `s.lastIndexOf(pat, pos)` — the last index `<= pos` at which
`pat` begins (`pos` is clamped to the string length); `none` models `-1`. -/
def lastIndexOfLe (s pat : String) (pos : Nat) : Option Nat :=
  findLastAux s pat (min pos s.data.length)

/-- JavaScript `s.includes(pat)`. -/
def containsB (s pat : String) : Bool := (indexOfFrom s pat 0).isSome

/-- JavaScript `s.substring(a, b)` for `a <= b`: characters `[a, b)`. -/
def substringJS (s : String) (a b : Nat) : String := String.mk ((s.data.take b).drop a)

/-- JavaScript `s.trimEnd()`: remove trailing whitespace. -/
def trimEndJS (s : String) : String :=
  String.mk ((s.data.reverse.dropWhile Char.isWhitespace).reverse)

/-- Outcome of the replacement step: the resulting document text and
whether the "Dummy preview has been deleted or modified. Replacing is
cancelled." notice was shown (in which case the text is unchanged). -/
structure ReplaceOutcome where
  newText : String
  cancelledNotice : Bool
deriving DecidableEq, Repr

/-- The replacement step of `embedUrl` (src/embedUtils.ts, lines 699-747),
operating on the current full document text, the generated placeholder id,
the embedded URL, and the final embed markdown.  `offsetToPos`/position
conversion is the identity on character offsets here, so
`replaceRange(embed.trimEnd(), startPos, endPos)` splices the document at
the located offsets. -/
def embedUrlReplace (fullText placeholderId url embed : String) : ReplaceOutcome :=
  match indexOfFrom fullText placeholderId 0 with
  | none => ⟨fullText, true⟩
  | some pIdx =>
    match lastIndexOfLe fullText "```embed" pIdx with
    | none => ⟨fullText, true⟩
    | some embedStart =>
      match indexOfFrom fullText "```" pIdx with
      | none => ⟨fullText, true⟩
      | some closeIdx =>
        let embedEnd := closeIdx + 3
        let dummy := substringJS fullText embedStart embedEnd
        if containsB dummy ("url: \"" ++ url ++ "\"") then
          ⟨substringJS fullText 0 embedStart ++ trimEndJS embed ++
            String.mk (fullText.data.drop embedEnd), false⟩
        else ⟨fullText, true⟩

lemma findFirstAux_eq_none (s pat : String) :
    ∀ fuel i, (∀ j, i ≤ j → j < i + fuel → occursAtB s pat j = false) →
    findFirstAux s pat fuel i = none := by
  intro fuel
  induction fuel with
  | zero => intro i _; rfl
  | succ f ih =>
    intro i h
    have h0 : occursAtB s pat i = false := h i le_rfl (by omega)
    rw [findFirstAux, h0]
    simp only [Bool.false_eq_true, if_false]
    exact ih (i + 1) (fun j hj1 hj2 => h j (by omega) (by omega))

lemma findFirstAux_eq_some (s pat : String) :
    ∀ fuel i k, i ≤ k → k < i + fuel → occursAtB s pat k = true →
    (∀ j, i ≤ j → j < k → occursAtB s pat j = false) →
    findFirstAux s pat fuel i = some k := by
  intro fuel
  induction fuel with
  | zero => intro i k h1 h2 _ _; omega
  | succ f ih =>
    intro i k h1 h2 hocc hmin
    by_cases hik : i = k
    · subst hik
      rw [findFirstAux, hocc]
      simp
    · have h0 : occursAtB s pat i = false := hmin i le_rfl (by omega)
      rw [findFirstAux, h0]
      simp only [Bool.false_eq_true, if_false]
      exact ih (i + 1) k (by omega) (by omega) hocc (fun j hj1 hj2 => hmin j (by omega) hj2)

lemma indexOfFrom_eq_none (s pat : String) (start : Nat)
    (h : ∀ j, start ≤ j → j ≤ s.data.length → occursAtB s pat j = false) :
    indexOfFrom s pat start = none := by
  apply findFirstAux_eq_none
  intro j hj1 hj2
  exact h j hj1 (by omega)

lemma indexOfFrom_eq_some (s pat : String) (start k : Nat) (hk : k ≤ s.data.length)
    (hs : start ≤ k) (hocc : occursAtB s pat k = true)
    (hmin : ∀ j, start ≤ j → j < k → occursAtB s pat j = false) :
    indexOfFrom s pat start = some k := by
  apply findFirstAux_eq_some s pat _ start k hs (by omega) hocc hmin

lemma findLastAux_eq_none (s pat : String) :
    ∀ i, (∀ j, j ≤ i → occursAtB s pat j = false) → findLastAux s pat i = none := by
  intro i
  induction i with
  | zero =>
    intro h
    rw [findLastAux, h 0 le_rfl]
    simp
  | succ n ih =>
    intro h
    rw [findLastAux, h (n + 1) le_rfl]
    simp only [Bool.false_eq_true, if_false]
    exact ih (fun j hj => h j (by omega))

lemma findLastAux_eq_some (s pat : String) :
    ∀ i k, k ≤ i → occursAtB s pat k = true →
    (∀ j, k < j → j ≤ i → occursAtB s pat j = false) →
    findLastAux s pat i = some k := by
  intro i
  induction i with
  | zero =>
    intro k hk hocc _
    have : k = 0 := by omega
    subst this
    rw [findLastAux, hocc]
    simp
  | succ n ih =>
    intro k hk hocc hmax
    by_cases hkn : k = n + 1
    · subst hkn
      rw [findLastAux, hocc]
      simp
    · have h0 : occursAtB s pat (n + 1) = false := hmax (n + 1) (by omega) le_rfl
      rw [findLastAux, h0]
      simp only [Bool.false_eq_true, if_false]
      exact ih k (by omega) hocc (fun j hj1 hj2 => hmax j hj1 (by omega))

lemma lastIndexOfLe_eq_none (s pat : String) (pos : Nat)
    (h : ∀ j, j ≤ pos → occursAtB s pat j = false) :
    lastIndexOfLe s pat pos = none := by
  apply findLastAux_eq_none
  intro j hj
  exact h j (le_trans hj (min_le_left _ _))

lemma lastIndexOfLe_eq_some (s pat : String) (pos k : Nat) (hpos : pos ≤ s.data.length)
    (hk : k ≤ pos) (hocc : occursAtB s pat k = true)
    (hmax : ∀ j, k < j → j ≤ pos → occursAtB s pat j = false) :
    lastIndexOfLe s pat pos = some k := by
  unfold lastIndexOfLe
  rw [min_eq_left hpos]
  exact findLastAux_eq_some s pat pos k hk hocc hmax

/-- An occurrence is witnessed by a decomposition of the character
sequence. -/
lemma occursAtB_of_decomp (s pat : String) (i : Nat) (pre post : List Char)
    (hs : s.data = pre ++ (pat.data ++ post)) (hi : i = pre.length) :
    occursAtB s pat i = true := by
  subst hi
  unfold occursAtB
  rw [hs, List.drop_left]
  rw [List.isPrefixOf_iff_prefix]
  exact List.prefix_append _ _

/-- Structure eta for strings. -/
lemma mk_data (t : String) : String.mk t.data = t := rfl

/-- `i` is the first index `>= start` at which `pat` occurs in `s`. -/
def isFirstOccFrom (s pat : String) (start i : Nat) : Prop :=
  start ≤ i ∧ i ≤ s.data.length ∧ occursAtB s pat i = true ∧
    ∀ j, start ≤ j → j < i → occursAtB s pat j = false

/-- `i` is the last index `<= pos` at which `pat` occurs in `s`. -/
def isLastOccLe (s pat : String) (pos i : Nat) : Prop :=
  i ≤ pos ∧ occursAtB s pat i = true ∧ ∀ j, i < j → j ≤ pos → occursAtB s pat j = false

/-- C4: in the replacement step of `embedUrl`, if the placeholder id is
absent from the document, or no opening fence occurs at or
before the id's first occurrence, or no closing fence occurs at or after
it, or the located block no longer contains the expected `url: "<url>"`
line, then no edit is applied — the document text is returned unchanged —
and the "dummy was modified/deleted" notice is shown. -/
theorem embedUrlReplace_abort (ft pid u embed : String)
    (h :
      (∀ i, i ≤ ft.data.length → occursAtB ft pid i = false) ∨
      (∃ pIdx, isFirstOccFrom ft pid 0 pIdx ∧
        ∀ j, j ≤ pIdx → occursAtB ft "```embed" j = false) ∨
      (∃ pIdx, isFirstOccFrom ft pid 0 pIdx ∧
        ∀ j, pIdx ≤ j → j ≤ ft.data.length → occursAtB ft "```" j = false) ∨
      (∃ pIdx a c, isFirstOccFrom ft pid 0 pIdx ∧ isLastOccLe ft "```embed" pIdx a ∧
        isFirstOccFrom ft "```" pIdx c ∧
        containsB (substringJS ft a (c + 3)) ("url: \"" ++ u ++ "\"") = false)) :
    embedUrlReplace ft pid u embed = ⟨ft, true⟩ := by
  rcases h with hA | ⟨pIdx, hfo, hB⟩ | ⟨pIdx, hfo, hC⟩ | ⟨pIdx, a, c, hfo, hlast, hclose, hD⟩
  · have h1 : indexOfFrom ft pid 0 = none :=
      indexOfFrom_eq_none ft pid 0 (fun j _ hj => hA j hj)
    simp [embedUrlReplace, h1]
  · obtain ⟨hs, hk, hocc, hmin⟩ := hfo
    have h1 : indexOfFrom ft pid 0 = some pIdx := indexOfFrom_eq_some ft pid 0 pIdx hk hs hocc hmin
    have h2 : lastIndexOfLe ft "```embed" pIdx = none := lastIndexOfLe_eq_none ft _ pIdx hB
    simp [embedUrlReplace, h1, h2]
  · obtain ⟨hs, hk, hocc, hmin⟩ := hfo
    have h1 : indexOfFrom ft pid 0 = some pIdx := indexOfFrom_eq_some ft pid 0 pIdx hk hs hocc hmin
    have h2 : indexOfFrom ft "```" pIdx = none := indexOfFrom_eq_none ft _ pIdx hC
    cases hL : lastIndexOfLe ft "```embed" pIdx <;> simp [embedUrlReplace, h1, h2, hL]
  · obtain ⟨hs, hk, hocc, hmin⟩ := hfo
    obtain ⟨hla, hoccA, hmaxA⟩ := hlast
    obtain ⟨hsc, hkc, hoccC, hminC⟩ := hclose
    have h1 : indexOfFrom ft pid 0 = some pIdx := indexOfFrom_eq_some ft pid 0 pIdx hk hs hocc hmin
    have h2 : lastIndexOfLe ft "```embed" pIdx = some a :=
      lastIndexOfLe_eq_some ft _ pIdx a hk hla hoccA hmaxA
    have h3 : indexOfFrom ft "```" pIdx = some c := indexOfFrom_eq_some ft _ pIdx c hkc hsc hoccC hminC
    simp [embedUrlReplace, h1, h2, h3, hD]

/-- Witness for C4: in a document that contains no occurrence of the
placeholder id at all, the replacement is aborted with the document
unchanged and the cancellation notice shown. -/
theorem embedUrlReplace_abort_witness :
    embedUrlReplace "hello world" "embed-1-zzz" "https://a.b" "NEW\n" =
      ⟨"hello world", true⟩ :=
  embedUrlReplace_abort "hello world" "embed-1-zzz" "https://a.b" "NEW\n"
    (Or.inl (by decide))

/-- C3: the replacement step succeeds on an intact dummy block.  The
document is `p ++ "```embed\n" ++ b1 ++ x ++ b2 ++ "\n```" ++ s` where `x`
is the placeholder id inside the block's body and the block carries the
line `url: "<u>"`.  The index `p.data.length + 9 + b1.data.length` is the
position of `x` (9 is the length of the opening fence line
`"```embed\n"`); the hypotheses say that this is the first occurrence of
`x`, that the block's own fences are the ones the backward/forward scans
find, and that `x` does not occur in the replaced document.  Then the whole
fenced region is replaced by the trimmed final embed markdown and the
resulting document contains no occurrence of `x`. -/
theorem embedUrlReplace_success (ft p b1 x b2 s u embed : String)
    (hft : ft = p ++ "```embed\n" ++ b1 ++ x ++ b2 ++ "\n```" ++ s)
    (hXfirst : ∀ j, j < p.data.length + 9 + b1.data.length → occursAtB ft x j = false)
    (hOpenLast : ∀ j, j ≤ p.data.length + 9 + b1.data.length → p.data.length < j →
      occursAtB ft "```embed" j = false)
    (hCloseFirst : ∀ j,
      j < p.data.length + 9 + b1.data.length + x.data.length + b2.data.length + 1 →
      p.data.length + 9 + b1.data.length ≤ j → occursAtB ft "```" j = false)
    (hUrl : containsB ("```embed\n" ++ b1 ++ x ++ b2 ++ "\n```")
      ("url: \"" ++ u ++ "\"") = true)
    (hFresh : containsB (p ++ trimEndJS embed ++ s) x = false) :
    embedUrlReplace ft x u embed = ⟨p ++ trimEndJS embed ++ s, false⟩ ∧
    containsB (embedUrlReplace ft x u embed).newText x = false := by
  subst hft
  have l9 : ("```embed\n" : String).data.length = 9 := rfl
  have l4 : ("\n```" : String).data.length = 4 := rfl
  have l1 : ("\n" : String).data.length = 1 := rfl
  have hsplit9 : ("```embed\n" : String).data =
      ("```embed" : String).data ++ ("\n" : String).data := by decide
  have hsplit4 : ("\n```" : String).data =
      ("\n" : String).data ++ ("```" : String).data := by decide
  -- the placeholder occurs at index I := |p| + 9 + |b1|
  have hdec1 : (p ++ "```embed\n" ++ b1 ++ x ++ b2 ++ "\n```" ++ s).data =
      (p.data ++ ("```embed\n" : String).data ++ b1.data) ++
        (x.data ++ (b2.data ++ ("\n```" : String).data ++ s.data)) := by
    simp [String.data_append]
  have occX : occursAtB (p ++ "```embed\n" ++ b1 ++ x ++ b2 ++ "\n```" ++ s) x
      (p.data.length + 9 + b1.data.length) = true := by
    apply occursAtB_of_decomp _ _ _ _ _ hdec1
    simp only [List.length_append, l9]
  -- the opening fence occurs at index |p|
  have hdec2 : (p ++ "```embed\n" ++ b1 ++ x ++ b2 ++ "\n```" ++ s).data =
      p.data ++ (("```embed" : String).data ++
        (("\n" : String).data ++ b1.data ++ x.data ++ b2.data ++
          ("\n```" : String).data ++ s.data)) := by
    simp [String.data_append, hsplit9]
  have occOpen : occursAtB (p ++ "```embed\n" ++ b1 ++ x ++ b2 ++ "\n```" ++ s) "```embed"
      p.data.length = true :=
    occursAtB_of_decomp _ _ _ _ _ hdec2 rfl
  -- the closing fence occurs at index C := I + |x| + |b2| + 1
  have hdec3 : (p ++ "```embed\n" ++ b1 ++ x ++ b2 ++ "\n```" ++ s).data =
      (p.data ++ ("```embed\n" : String).data ++ b1.data ++ x.data ++ b2.data ++
        ("\n" : String).data) ++ (("```" : String).data ++ s.data) := by
    simp [String.data_append, hsplit4]
  have occClose : occursAtB (p ++ "```embed\n" ++ b1 ++ x ++ b2 ++ "\n```" ++ s) "```"
      (p.data.length + 9 + b1.data.length + x.data.length + b2.data.length + 1) = true := by
    apply occursAtB_of_decomp _ _ _ _ _ hdec3
    simp only [List.length_append, l9, l1]
  have hlenft : (p ++ "```embed\n" ++ b1 ++ x ++ b2 ++ "\n```" ++ s).data.length =
      p.data.length + 9 + b1.data.length + x.data.length + b2.data.length + 4 +
        s.data.length := by
    simp only [String.data_append, List.length_append, l9, l4]
  -- the three scans of the source resolve as expected
  have hidx : indexOfFrom (p ++ "```embed\n" ++ b1 ++ x ++ b2 ++ "\n```" ++ s) x 0 =
      some (p.data.length + 9 + b1.data.length) := by
    apply indexOfFrom_eq_some _ _ _ _ (by rw [hlenft]; omega) (Nat.zero_le _) occX
    exact fun j _ hj => hXfirst j hj
  have hlast : lastIndexOfLe (p ++ "```embed\n" ++ b1 ++ x ++ b2 ++ "\n```" ++ s) "```embed"
      (p.data.length + 9 + b1.data.length) = some p.data.length := by
    apply lastIndexOfLe_eq_some _ _ _ _ (by rw [hlenft]; omega) (by omega) occOpen
    exact fun j hj1 hj2 => hOpenLast j hj2 hj1
  have hclose : indexOfFrom (p ++ "```embed\n" ++ b1 ++ x ++ b2 ++ "\n```" ++ s) "```"
      (p.data.length + 9 + b1.data.length) =
      some (p.data.length + 9 + b1.data.length + x.data.length + b2.data.length + 1) := by
    apply indexOfFrom_eq_some _ _ _ _ (by rw [hlenft]; omega) (by omega) occClose
    exact fun j hj1 hj2 => hCloseFirst j hj2 hj1
  -- the located region is exactly the dummy block
  have hdecd : (p ++ "```embed\n" ++ b1 ++ x ++ b2 ++ "\n```" ++ s).data =
      (p.data ++ ("```embed\n" ++ b1 ++ x ++ b2 ++ "\n```").data) ++ s.data := by
    simp [String.data_append]
  have hlen1 : (p.data ++ ("```embed\n" ++ b1 ++ x ++ b2 ++ "\n```").data).length =
      p.data.length + 9 + b1.data.length + x.data.length + b2.data.length + 1 + 3 := by
    simp only [String.data_append, List.length_append, l9, l4]
    omega
  have hblock : substringJS (p ++ "```embed\n" ++ b1 ++ x ++ b2 ++ "\n```" ++ s)
      p.data.length
      (p.data.length + 9 + b1.data.length + x.data.length + b2.data.length + 1 + 3) =
      "```embed\n" ++ b1 ++ x ++ b2 ++ "\n```" := by
    unfold substringJS
    rw [hdecd, List.take_left' hlen1]
    have : (p.data ++ ("```embed\n" ++ b1 ++ x ++ b2 ++ "\n```").data).drop p.data.length =
        ("```embed\n" ++ b1 ++ x ++ b2 ++ "\n```").data := List.drop_left _ _
    rw [this, mk_data]
  have hcontains : containsB (substringJS (p ++ "```embed\n" ++ b1 ++ x ++ b2 ++ "\n```" ++ s)
      p.data.length
      (p.data.length + 9 + b1.data.length + x.data.length + b2.data.length + 1 + 3))
      ("url: \"" ++ u ++ "\"") = true := by
    rw [hblock]; exact hUrl
  -- the spliced text is p ++ trimEnd(embed) ++ s
  have hpre : substringJS (p ++ "```embed\n" ++ b1 ++ x ++ b2 ++ "\n```" ++ s) 0
      p.data.length = p := by
    unfold substringJS
    rw [List.drop_zero, hdecd, List.append_assoc, List.take_left, mk_data]
  have hsuf : String.mk ((p ++ "```embed\n" ++ b1 ++ x ++ b2 ++ "\n```" ++ s).data.drop
      (p.data.length + 9 + b1.data.length + x.data.length + b2.data.length + 1 + 3)) = s := by
    rw [hdecd, List.drop_left' hlen1, mk_data]
  have hmain : embedUrlReplace (p ++ "```embed\n" ++ b1 ++ x ++ b2 ++ "\n```" ++ s) x u embed =
      ⟨p ++ trimEndJS embed ++ s, false⟩ := by
    simp only [embedUrlReplace, hidx, hlast, hclose, hcontains, if_true, hpre, hsuf]
  exact ⟨hmain, by rw [hmain]; exact hFresh⟩

/-- Witness for C3: a concrete document consisting of exactly one dummy
block whose body carries the placeholder id and the url line; the block is
replaced by the trimmed embed markdown and the id is gone. -/
theorem embedUrlReplace_success_witness :
    embedUrlReplace ("Intro\n" ++ "```embed\n" ++ "placeholder-id: \"" ++ "embed-1-abc" ++
        "\"\nurl: \"https://a.b\"" ++ "\n```" ++ "\ntail") "embed-1-abc" "https://a.b"
        "NEW EMBED\n" =
      ⟨"Intro\n" ++ trimEndJS "NEW EMBED\n" ++ "\ntail", false⟩ ∧
    containsB (embedUrlReplace ("Intro\n" ++ "```embed\n" ++ "placeholder-id: \"" ++
        "embed-1-abc" ++ "\"\nurl: \"https://a.b\"" ++ "\n```" ++ "\ntail") "embed-1-abc"
        "https://a.b" "NEW EMBED\n").newText "embed-1-abc" = false :=
  embedUrlReplace_success
    ("Intro\n" ++ "```embed\n" ++ "placeholder-id: \"" ++ "embed-1-abc" ++
      "\"\nurl: \"https://a.b\"" ++ "\n```" ++ "\ntail")
    "Intro\n" "placeholder-id: \"" "embed-1-abc" "\"\nurl: \"https://a.b\"" "\ntail"
    "https://a.b" "NEW EMBED\n" rfl (by decide) (by decide) (by decide) (by decide) (by decide)

end LinkEmbed
